import Mathlib

/-!
Verification of the momentum-backtest pipeline (`src/backtest.js`,
`src/helpers.js`) against its natural-language specification.

The JavaScript source is shallowly embedded: prices and percentages are
modelled as rationals (`ℚ`), JavaScript `Math.round` as `⌊x + 1/2⌋`
(round half toward positive infinity, which is its behavior on exact
halves), JavaScript plain objects used as insertion-ordered string-keyed
maps as association lists, `Array.prototype.sort` (stable since ES2019)
as `List.mergeSort`, and the promise-based fallible file reads as the
`Except` monad, with the data source passed in as a function from symbol
to `Except`.  Dates are modelled at day granularity as a year/month/day
record; the `DD-MM-YYYY` string formatting of `moment` is a bijective
representation of that record, and the month bucket key `MMM` is the
month component alone.  The CSV export is modelled as its list of data
rows (the constant header line is omitted).
-/

namespace AlgoTrading

/-- A calendar date at day granularity (the `DD-MM-YYYY` keys of the source). -/
structure Date where
  year : ℕ
  month : ℕ
  day : ℕ
deriving DecidableEq, Inhabited

/-- Chronological comparison of dates, as `moment(d1).diff(moment(d2)) ≤ 0`. -/
def Date.le (a b : Date) : Bool :=
  a.year < b.year ∨ (a.year = b.year ∧
    (a.month < b.month ∨ (a.month = b.month ∧ a.day ≤ b.day)))

/-- One daily OHLC bar; only `open` and `close` are used by the core
(`open` is a Lean keyword, hence `openPrice`). -/
structure Bar where
  date : Date
  openPrice : ℚ
  close : ℚ
deriving DecidableEq, Inhabited

/-- The parsed content of a `data/<year>/<symbol>.json` file: the fields the
core reads (the `ohlc` array, most-recent-first). -/
structure Instrument where
  ohlc : List Bar
deriving DecidableEq, Inhabited

/-- A candidate/selected trade record as pushed by `runTest` in
`src/backtest.js`. -/
structure Trade where
  date : Date
  entry : ℚ
  exit : ℚ
  symbol : String
  pnlPercent : ℚ
  change : ℚ
deriving DecidableEq, Inhabited

/-- Source `helpers.round`: `Math.round(number * 100) / 100`, with JavaScript
`Math.round y = ⌊y + 0.5⌋`. -/
def round (number : ℚ) : ℚ :=
  ((⌊number * 100 + 1/2⌋ : ℤ) : ℚ) / 100

/-- Source `helpers.percentChange(a, b) = round(((b - a) / a) * 100)`. -/
def percentChange (a b : ℚ) : ℚ :=
  round ((b - a) / a * 100)

/-- Source `const slippage = 1 + 0.001` in `src/backtest.js`. -/
def slippage : ℚ := 1 + 1/1000

/-- The body of the `runTest` loop for one window `d0..d4`: the two nested
condition checks, and the trade record that is pushed when both pass. -/
def checkWindow (symbol : String) (d0 d1 d2 d3 d4 : Bar) : Option Trade :=
  if (d1.close - d2.close > d2.close - d3.close)
      ∧ (d2.close - d3.close > d3.close - d4.close)
      ∧ d1.close > d2.close ∧ d2.close > d3.close ∧ d3.close > d4.close then
    let d1inc := percentChange d2.close d1.close
    let d2inc := percentChange d3.close d2.close
    let d3inc := percentChange d4.close d4.close
    if d1inc > d2inc ∧ d2inc > d3inc then
      let entry := round (d1.close * slippage)
      some { date := d1.date, entry := entry, exit := d0.openPrice,
             symbol := symbol, pnlPercent := percentChange entry d0.openPrice,
             change := d1inc }
    else none
  else none

/-- The window of `runTest` beginning at index `start`: the loop always runs
with `start + 4 < ohlc.length`, so the `getD` defaults are never consulted. -/
def windowAt (symbol : String) (ohlc : List Bar) (start : ℕ) : Option Trade :=
  checkWindow symbol (ohlc.getD start default) (ohlc.getD (start + 1) default)
    (ohlc.getD (start + 2) default) (ohlc.getD (start + 3) default)
    (ohlc.getD (start + 4) default)

/-- Function `runTest` of `src/backtest.js`, given the already-parsed instrument data:
the `for` loop over `start < maxIteration = ohlc.length - 4`, pushing the
trades of the windows that pass both checks. -/
def runTest (symbol : String) (ohlc : List Bar) : List Trade :=
  (List.range (ohlc.length - 4)).filterMap (windowAt symbol ohlc)

/-- The `helpers.readFile` step of `runTest`, with the fallible
year-scoped data source passed in as a function: a missing or malformed
file is an `Except.error`, as a rejected promise. -/
def runTestFor (source : String → Except String Instrument)
    (symbol : String) : Except String (List Trade) :=
  (source symbol).map (fun inst => runTest symbol inst.ohlc)

/-- Source `flatten(await Promise.all(nfoStocks.map(symbol => runTest(year, symbol))))`:
every per-symbol scan must succeed; any rejection rejects the whole scan. -/
def scanAll (source : String → Except String Instrument) :
    List String → Except String (List Trade)
  | [] => Except.ok []
  | s :: rest =>
    match runTestFor source s, scanAll source rest with
    | Except.ok ts, Except.ok acc => Except.ok (ts ++ acc)
    | Except.error e, _ => Except.error e
    | _, Except.error e => Except.error e

/-- Append a value to the bucket of key `k` of an insertion-ordered
association list of buckets, creating the bucket at the end if absent
(JavaScript object key semantics for the non-numeric string keys used here). -/
def alistPush {κ α : Type} [DecidableEq κ] :
    List (κ × List α) → κ → α → List (κ × List α)
  | [], k, a => [(k, [a])]
  | (k', as) :: rest, k, a =>
    if k' = k then (k', as ++ [a]) :: rest
    else (k', as) :: alistPush rest k a

/-- Source `helpers.groupByDate`: the `reduce` that buckets trades by their `date`
field, preserving both key first-appearance order and per-bucket insertion
order. -/
def groupByDate (l : List Trade) : List (Date × List Trade) :=
  l.foldl (fun acc t => alistPush acc t.date t) []

/-- The comparator `(t1, t2) => t2.change - t1.change` as a total boolean
relation: `t1` may stay before `t2` iff its `change` is at least `t2`'s. -/
def tradeLe (t1 t2 : Trade) : Bool := t2.change ≤ t1.change

/-- Source `.sort((t1, t2) => t2.change - t1.change)`: stable descending sort of a
date's trades by their `change` ranking key. -/
def sortTrades (ts : List Trade) : List Trade := ts.mergeSort tradeLe

/-- Sort then `.slice(0, 2)`: the top-two selection applied to each date. -/
def top2 (ts : List Trade) : List Trade := (sortTrades ts).take 2

/-- Set the value of key `k` in an insertion-ordered association list,
appending the key at the end if absent. -/
def alistUpdate {κ α : Type} [DecidableEq κ] :
    List (κ × α) → κ → α → List (κ × α)
  | [], k, v => [(k, v)]
  | (k', v') :: rest, k, v =>
    if k' = k then (k', v) :: rest
    else (k', v') :: alistUpdate rest k v

/-- Look up the value of key `k` in an association list. -/
def alistLookup {κ α : Type} [DecidableEq κ] :
    List (κ × α) → κ → Option α
  | [], _ => none
  | (k', v) :: rest, k => if k' = k then some v else alistLookup rest k

/-- Source `moment(date, DATE_FORMAT).format('MMM')`: the month bucket key is the
month component alone (no year). -/
def monthOf (d : Date) : ℕ := d.month

/-- A date's `totalPnl`: the plain (unrounded) running sum of the selected
trades' `pnlPercent`, in selection order. -/
def dateTotal (ts : List Trade) : ℚ :=
  (top2 ts).foldl (fun acc t => acc + t.pnlPercent) 0

/-- Chronological comparator on date buckets, as the `sort` on
`Object.keys(allTradesByDates)`. -/
def bucketLe (a b : Date × List Trade) : Bool := Date.le a.1 b.1

/-- The date buckets of all trades, sorted chronologically by date key. -/
def sortedBuckets (allTrades : List Trade) : List (Date × List Trade) :=
  (groupByDate allTrades).mergeSort bucketLe

/-- The body of the per-date `forEach` of `runBacktest`: selects the top two
trades, folds their profit/loss into the month bucket with a rounding after
the addition, and records the selection under the date key. -/
def processDate (st : List (ℕ × ℚ) × List (Date × List Trade))
    (e : Date × List Trade) : List (ℕ × ℚ) × List (Date × List Trade) :=
  let m := monthOf e.1
  let cur := (alistLookup st.1 m).getD 0
  (alistUpdate st.1 m (round (cur + dateTotal e.2)),
   st.2 ++ [(e.1, top2 e.2)])

/-- The result object of `runBacktest`, together with the data rows of the
CSV export (the constant `Date,PnL%` header omitted). -/
structure Results where
  yearlyPnl : ℚ
  monthlyPnl : List (ℕ × ℚ)
  trades : List (Date × List Trade)
  csv : List (Date × ℚ)
deriving DecidableEq, Inhabited

/-- The aggregation phase of `runBacktest` on the flattened trade list:
group by date, walk the dates chronologically accumulating the monthly
totals and the per-date selections, then build the CSV rows with a fresh
zero-accumulator rounded reduction per date, and the yearly total as the
rounded reduction of the monthly totals. -/
def runBacktestCore (allTrades : List Trade) : Results :=
  let st := (sortedBuckets allTrades).foldl processDate ([], [])
  { yearlyPnl := st.1.foldl (fun acc mv => round (acc + mv.2)) 0,
    monthlyPnl := st.1,
    trades := st.2,
    csv := st.2.map (fun e =>
      (e.1, e.2.foldl (fun acc t => round (acc + t.pnlPercent)) 0)) }

/-- Function `runBacktest` of `src/backtest.js` (download and persistence steps,
which are external collaborators, omitted): scan the whole universe — any
per-symbol failure rejects the run — then aggregate. -/
def runBacktest (source : String → Except String Instrument)
    (symbols : List String) : Except String Results :=
  (scanAll source symbols).map runBacktestCore

/-! Concrete sample data used by witnesses and counterexamples. -/

/-- Exit-day bar of the sample series. -/
def exBar0 : Bar := ⟨⟨2018, 5, 11⟩, 107, 108⟩

/-- Signal-day bar of the sample series (close 106). -/
def exBar1 : Bar := ⟨⟨2018, 5, 10⟩, 105, 106⟩

/-- Sample bar, close 103. -/
def exBar2 : Bar := ⟨⟨2018, 5, 9⟩, 102, 103⟩

/-- Sample bar, close 101. -/
def exBar3 : Bar := ⟨⟨2018, 5, 8⟩, 100, 101⟩

/-- Sample bar, close 100. -/
def exBar4 : Bar := ⟨⟨2018, 5, 7⟩, 99, 100⟩

/-- A 5-bar most-recent-first series whose single window passes all entry
conditions (closes 106, 103, 101, 100: deltas 3 > 2 > 1, rises, and
percent increments 2.91 > 1.98 > 0). -/
def exOhlc : List Bar := [exBar0, exBar1, exBar2, exBar3, exBar4]

/-- A 3-bar series, too short for any window. -/
def exShort : List Bar := [exBar0, exBar1, exBar2]

/-- The trade `runTest` emits for the single window of `exOhlc`. -/
def exTrade : Trade :=
  ⟨⟨2018, 5, 10⟩, 10611/100, 107, "B", 21/25, 291/100⟩

/-- A data source on which symbol `B` resolves to `exOhlc` and every other
symbol's file is missing. -/
def srcC1 : String → Except String Instrument :=
  fun s => if s = "B" then Except.ok ⟨exOhlc⟩ else Except.error "missing"

/-- A sample signal date shared by two selected trades. -/
def exDate : Date := ⟨2018, 3, 5⟩

/-- Sample selected trade with profit/loss percent `1.5`. -/
def exTradeA : Trade := ⟨exDate, 100, 101, "A", 3/2, 2⟩

/-- Sample selected trade on the same date with profit/loss percent `-0.5`. -/
def exTradeB : Trade := ⟨exDate, 50, 49, "B", -(1/2), 1⟩

/-- Three same-date trades with distinct ranking keys. -/
def exTriple : List Trade :=
  [⟨exDate, 10, 11, "A", 1, 3⟩, ⟨exDate, 20, 21, "B", 1, 2⟩,
   ⟨exDate, 30, 31, "C", 1, 1⟩]

/-! Helper lemmas shared by the claim theorems. -/

lemma percentChange_self (a : ℚ) : percentChange a a = 0 := by
  simp [percentChange, round]
  norm_num

/-- C4: `helpers.round` multiplies by 100, rounds the scaled value to the
nearest integer rounding exact halves upward (toward positive infinity, as
JavaScript `Math.round` does, also for negative scaled halves), and divides
by 100: its value is the multiple `n/100` with `n - 1/2 ≤ 100·x < n + 1/2`;
in particular `round (-0.025) = -0.02`. -/
theorem round_is_half_up :
    (∀ x : ℚ, ∃ n : ℤ, round x = (n : ℚ) / 100 ∧
      (n : ℚ) - 1/2 ≤ 100 * x ∧ 100 * x < (n : ℚ) + 1/2)
    ∧ round (-(1/40)) = -(1/50) := by
  constructor
  · intro x
    refine ⟨⌊x * 100 + 1/2⌋, rfl, ?_, ?_⟩
    · have h := Int.floor_le (x * 100 + 1/2)
      linarith
    · have h := Int.lt_floor_add_one (x * 100 + 1/2)
      linarith
  · norm_num [round]

/-- C9: a price series with fewer than 5 bars yields an empty candidate
list (the loop bound `ohlc.length - 4` is then 0), with no error. -/
theorem short_series_yields_no_candidates (symbol : String) (ohlc : List Bar)
    (h : ohlc.length < 5) : runTest symbol ohlc = [] := by
  unfold runTest
  have h4 : ohlc.length - 4 = 0 := by omega
  rw [h4]
  rfl

/-- Witness for C9 at the concrete 3-bar series. -/
theorem short_series_yields_no_candidates_witness :
    exShort.length < 5 ∧ runTest "X" exShort = [] :=
  ⟨by decide, short_series_yields_no_candidates "X" exShort (by decide)⟩

/-- C3: for every window start index `i` with `i + 5 ≤ length` (that is,
`i ≤ length - 5`), the detector emits a candidate for the window at `i`
if and only if the three entry conditions hold on bars `d1..d4`: delta
deceleration, monotone price increase, and percent-change deceleration
against the constant-zero third increment `pctChange(d4.close, d4.close)`. -/
theorem detector_emits_iff_conditions (symbol : String) (ohlc : List Bar)
    (i : ℕ) (h : i + 5 ≤ ohlc.length) :
    (windowAt symbol ohlc i).isSome = true ↔
      (((ohlc.getD (i + 1) default).close - (ohlc.getD (i + 2) default).close >
          (ohlc.getD (i + 2) default).close - (ohlc.getD (i + 3) default).close)
        ∧ ((ohlc.getD (i + 2) default).close - (ohlc.getD (i + 3) default).close >
          (ohlc.getD (i + 3) default).close - (ohlc.getD (i + 4) default).close)
        ∧ (ohlc.getD (i + 1) default).close > (ohlc.getD (i + 2) default).close
        ∧ (ohlc.getD (i + 2) default).close > (ohlc.getD (i + 3) default).close
        ∧ (ohlc.getD (i + 3) default).close > (ohlc.getD (i + 4) default).close)
      ∧ (percentChange (ohlc.getD (i + 2) default).close
            (ohlc.getD (i + 1) default).close >
          percentChange (ohlc.getD (i + 3) default).close
            (ohlc.getD (i + 2) default).close
        ∧ percentChange (ohlc.getD (i + 3) default).close
            (ohlc.getD (i + 2) default).close >
          percentChange (ohlc.getD (i + 4) default).close
            (ohlc.getD (i + 4) default).close) := by
  unfold windowAt checkWindow
  split
  · dsimp only
    split
    · simp_all
    · simp_all
  · simp_all

/-- Witness for C3: the single window of the sample series satisfies the
conditions and is emitted. -/
theorem detector_emits_iff_conditions_witness :
    0 + 5 ≤ exOhlc.length ∧ (windowAt "B" exOhlc 0).isSome = true :=
  ⟨by decide,
   (detector_emits_iff_conditions "B" exOhlc 0 (by decide)).mpr (by
     simp only [exOhlc, exBar0, exBar1, exBar2, exBar3, exBar4,
       List.getD_cons_zero, List.getD_cons_succ]
     norm_num [percentChange, round])⟩

lemma windowAt_exOhlc : windowAt "B" exOhlc 0 = some exTrade := by
  unfold windowAt checkWindow exOhlc
  simp only [exBar0, exBar1, exBar2, exBar3, exBar4,
    List.getD_cons_zero, List.getD_cons_succ]
  norm_num [percentChange, round, slippage, exTrade]

lemma runTest_exOhlc : runTest "B" exOhlc = [exTrade] := by
  unfold runTest
  have hl : exOhlc.length - 4 = 1 := by simp [exOhlc]
  have hr : List.range 1 = [0] := rfl
  rw [hl, hr]
  simp [windowAt_exOhlc]

/-- C8: every emitted candidate stores the signal day's date, the
slippage-adjusted rounded entry price, the exit at the following day's
open, the first percent increment as its ranking key, and a profit/loss
percent that is exactly `percentChange` of its stored entry and exit. -/
theorem candidate_fields (symbol : String) (ohlc : List Bar) (i : ℕ)
    (t : Trade) (h : i + 5 ≤ ohlc.length)
    (he : windowAt symbol ohlc i = some t) :
    t.date = (ohlc.getD (i + 1) default).date
    ∧ t.entry = round ((ohlc.getD (i + 1) default).close * (1 + 1/1000))
    ∧ t.exit = (ohlc.getD i default).openPrice
    ∧ t.change = percentChange (ohlc.getD (i + 2) default).close
        (ohlc.getD (i + 1) default).close
    ∧ t.pnlPercent = percentChange t.entry t.exit := by
  unfold windowAt checkWindow at he
  split at he
  · dsimp only at he
    split at he
    · injection he with he'
      subst he'
      exact ⟨rfl, rfl, rfl, rfl, rfl⟩
    · exact absurd he (by simp)
  · exact absurd he (by simp)

/-- Witness for C8 at the sample series' emitted trade. -/
theorem candidate_fields_witness :
    (0 + 5 ≤ exOhlc.length ∧ windowAt "B" exOhlc 0 = some exTrade)
    ∧ exTrade.pnlPercent = percentChange exTrade.entry exTrade.exit :=
  ⟨⟨by decide, windowAt_exOhlc⟩,
   (candidate_fields "B" exOhlc 0 exTrade (by decide) windowAt_exOhlc).2.2.2.2⟩

/-- C10: every candidate the detector emits has a strictly positive
ranking key, because emission requires `inc1 > inc2 > inc3` and the third
increment `pctChange(d4.close, d4.close)` is identically zero. -/
theorem emitted_change_positive (symbol : String) (ohlc : List Bar)
    (t : Trade) (ht : t ∈ runTest symbol ohlc) : 0 < t.change := by
  unfold runTest at ht
  rw [List.mem_filterMap] at ht
  obtain ⟨i, -, hw⟩ := ht
  unfold windowAt checkWindow at hw
  split at hw
  · dsimp only at hw
    split at hw
    · rename_i hcond
      rw [percentChange_self] at hcond
      injection hw with hw'
      subst hw'
      exact lt_trans hcond.2 hcond.1
    · exact absurd hw (by simp)
  · exact absurd hw (by simp)

/-- Witness for C10 at the sample series' emitted trade. -/
theorem emitted_change_positive_witness :
    exTrade ∈ runTest "B" exOhlc ∧ 0 < exTrade.change :=
  ⟨by rw [runTest_exOhlc]; exact List.mem_singleton.mpr rfl,
   emitted_change_positive "B" exOhlc exTrade
     (by rw [runTest_exOhlc]; exact List.mem_singleton.mpr rfl)⟩

/-- Counterexample to C1 as stated: with symbol `A`'s data file missing and
symbol `B`'s series producing one candidate, the run does not complete
with a rollup that merely excludes `A` — the whole run fails, and `B`'s
candidate is lost with it. -/
theorem missing_data_skip_cex :
    runBacktest srcC1 ["A", "B"] = Except.error "missing"
    ∧ (runTest "B" exOhlc).length = 1 := by
  constructor
  · simp [runBacktest, scanAll, runTestFor, srcC1, Except.map]
  · rw [runTest_exOhlc]
    rfl

/-- C1 amended: if any instrument of the universe fails to load, the whole
run is rejected (`Promise.all` semantics — no per-instrument catch exists
in `runBacktest`), rather than completing without that instrument. -/
theorem missing_data_fails_run (source : String → Except String Instrument)
    (symbols : List String) (s : String) (hmem : s ∈ symbols)
    (herr : ∃ e, source s = Except.error e) :
    ∃ e', runBacktest source symbols = Except.error e' := by
  obtain ⟨e, he⟩ := herr
  suffices h : ∃ e', scanAll source symbols = Except.error e' by
    obtain ⟨e', h'⟩ := h
    exact ⟨e', by unfold runBacktest; rw [h']; rfl⟩
  induction symbols with
  | nil => cases hmem
  | cons a rest ih =>
    rcases List.mem_cons.mp hmem with h1 | h1
    · subst h1
      refine ⟨e, ?_⟩
      unfold scanAll runTestFor
      rw [he]
      simp [Except.map]
    · obtain ⟨e', he'⟩ := ih h1
      unfold scanAll
      rw [he']
      cases hr : runTestFor source a
      · exact ⟨_, rfl⟩
      · exact ⟨e', rfl⟩

/-- Witness for the amended C1 at the concrete two-symbol universe. -/
theorem missing_data_fails_run_witness :
    ("A" ∈ ["A", "B"] ∧ ∃ e, srcC1 "A" = Except.error e)
    ∧ ∃ e', runBacktest srcC1 ["A", "B"] = Except.error e' :=
  ⟨⟨by simp, ⟨"missing", by simp [srcC1]⟩⟩,
   missing_data_fails_run srcC1 ["A", "B"] "A" (by simp)
     ⟨"missing", by simp [srcC1]⟩⟩

/-- Counterexample to C2 as stated: on an empty universe the pipeline does
not fail — it returns a successful rollup built from zero candidates
(yearly total 0, empty monthly map, empty trades map, empty export). -/
theorem empty_universe_fails_cex :
    runBacktest (fun _ => Except.error "nofile") [] =
      Except.ok { yearlyPnl := 0, monthlyPnl := [], trades := [], csv := [] } := by
  simp [runBacktest, scanAll, runBacktestCore, sortedBuckets, groupByDate,
    Except.map]

/-- C2 amended: for every data source, an empty instrument universe makes
`runBacktest` return a successful zero rollup, not an explicit failure. -/
theorem empty_universe_returns_zero_rollup
    (source : String → Except String Instrument) :
    runBacktest source [] =
      Except.ok { yearlyPnl := 0, monthlyPnl := [], trades := [], csv := [] } := by
  simp [runBacktest, scanAll, runBacktestCore, sortedBuckets, groupByDate,
    Except.map]

lemma dateLe_total (a b : Date) : (Date.le a b || Date.le b a) = true := by
  simp only [Date.le, Bool.or_eq_true, decide_eq_true_eq]
  omega

lemma dateLe_trans (a b c : Date) :
    Date.le a b → Date.le b c → Date.le a c := by
  simp only [Date.le, decide_eq_true_eq]
  omega

lemma bucketLe_total (a b : Date × List Trade) :
    (bucketLe a b || bucketLe b a) = true :=
  dateLe_total a.1 b.1

lemma bucketLe_trans (a b c : Date × List Trade) :
    bucketLe a b → bucketLe b c → bucketLe a c :=
  dateLe_trans a.1 b.1 c.1

lemma tradeLe_total (a b : Trade) : (tradeLe a b || tradeLe b a) = true := by
  simp only [tradeLe, Bool.or_eq_true, decide_eq_true_eq]
  exact le_total b.change a.change

lemma tradeLe_trans (a b c : Trade) :
    tradeLe a b → tradeLe b c → tradeLe a c := by
  simp only [tradeLe, decide_eq_true_eq]
  intro h1 h2
  exact le_trans h2 h1

lemma alistLookup_update_self {κ α : Type} [DecidableEq κ]
    (l : List (κ × α)) (k : κ) (v : α) :
    alistLookup (alistUpdate l k v) k = some v := by
  induction l with
  | nil => simp [alistUpdate, alistLookup]
  | cons p rest ih =>
    obtain ⟨k', v'⟩ := p
    by_cases h : k' = k
    · subst h
      simp [alistUpdate, alistLookup]
    · simp [alistUpdate, alistLookup, h, ih]

lemma alistLookup_update_ne {κ α : Type} [DecidableEq κ]
    (l : List (κ × α)) (k m : κ) (v : α) (h : k ≠ m) :
    alistLookup (alistUpdate l k v) m = alistLookup l m := by
  induction l with
  | nil => simp [alistUpdate, alistLookup, h]
  | cons p rest ih =>
    obtain ⟨k', v'⟩ := p
    by_cases hk : k' = k
    · subst hk
      simp [alistUpdate, alistLookup, h, Ne.symm h]
    · simp [alistUpdate, alistLookup, hk, ih]

lemma foldl_processDate_monthly (entries : List (Date × List Trade)) (m : ℕ) :
    ∀ st : List (ℕ × ℚ) × List (Date × List Trade),
    (alistLookup ((entries.foldl processDate st).1) m).getD 0 =
      (entries.filter (fun e => monthOf e.1 = m)).foldl
        (fun acc e => round (acc + dateTotal e.2))
        ((alistLookup st.1 m).getD 0) := by
  induction entries with
  | nil => intro st; rfl
  | cons e rest ih =>
    intro st
    rw [List.foldl_cons]
    by_cases h : monthOf e.1 = m
    · rw [List.filter_cons_of_pos (by simpa using h), List.foldl_cons, ih]
      have hupd : (alistLookup ((processDate st e).1) m).getD 0 =
          round ((alistLookup st.1 m).getD 0 + dateTotal e.2) := by
        simp only [processDate]
        rw [h, alistLookup_update_self]
        rfl
      rw [hupd]
    · rw [List.filter_cons_of_neg (by simpa using h), ih]
      have hupd : (alistLookup ((processDate st e).1) m).getD 0 =
          (alistLookup st.1 m).getD 0 := by
        simp only [processDate]
        rw [alistLookup_update_ne _ _ _ _ h]
      rw [hupd]

lemma foldl_processDate_snd (entries : List (Date × List Trade)) :
    ∀ st : List (ℕ × ℚ) × List (Date × List Trade),
    (entries.foldl processDate st).2 =
      st.2 ++ entries.map (fun e => (e.1, top2 e.2)) := by
  induction entries with
  | nil => intro st; simp
  | cons e rest ih =>
    intro st
    rw [List.foldl_cons, ih]
    simp [processDate]

/-- C5: the rollup walks the date buckets in ascending calendar order; each
month's total is the fold that adds each of that month's dates' summed
selected-trade profit/loss and rounds after every addition, and the yearly
total is the same rounded fold over the monthly totals. -/
theorem monthly_rollup_stepwise (allTrades : List Trade) (m : ℕ) :
    ((sortedBuckets allTrades).Pairwise fun a b => bucketLe a b = true)
    ∧ (alistLookup (runBacktestCore allTrades).monthlyPnl m).getD 0 =
        ((sortedBuckets allTrades).filter (fun e => monthOf e.1 = m)).foldl
          (fun acc e => round (acc + dateTotal e.2)) 0
    ∧ (runBacktestCore allTrades).yearlyPnl =
        (runBacktestCore allTrades).monthlyPnl.foldl
          (fun acc mv => round (acc + mv.2)) 0 := by
  refine ⟨?_, ?_, rfl⟩
  · exact List.sorted_mergeSort bucketLe_trans bucketLe_total _
  · have h := foldl_processDate_monthly (sortedBuckets allTrades) m ([], [])
    simpa [runBacktestCore, alistLookup] using h

/-- C6: each date's candidates are ordered by ranking key descending with a
stable sort and only the first two kept: the per-date selection recorded in
the rollup is `top2` of the date's bucket; the sort is descending on
`change`; dates with at least 3 candidates keep exactly 2, each ranking at
least every non-selected candidate; dates with fewer than 2 keep all; and
any correctly-ordered pair (in particular, any tie) keeps its insertion
order. -/
theorem ranker_selects_top_two (allTrades : List Trade) :
    (runBacktestCore allTrades).trades =
      (sortedBuckets allTrades).map (fun e => (e.1, top2 e.2))
    ∧ ∀ ts : List Trade,
      ((sortTrades ts).Pairwise fun a b => b.change ≤ a.change)
      ∧ (3 ≤ ts.length → (top2 ts).length = 2)
      ∧ (∀ x ∈ top2 ts, ∀ y ∈ ts, y ∉ top2 ts → y.change ≤ x.change)
      ∧ (ts.length < 2 → top2 ts = ts)
      ∧ (∀ a b : Trade, [a, b].Sublist ts → b.change ≤ a.change →
          [a, b].Sublist (sortTrades ts)) := by
  constructor
  · have h := foldl_processDate_snd (sortedBuckets allTrades) ([], [])
    simpa [runBacktestCore] using h
  intro ts
  have hpair : (sortTrades ts).Pairwise fun a b => tradeLe a b = true :=
    List.sorted_mergeSort tradeLe_trans tradeLe_total ts
  refine ⟨?_, ?_, ?_, ?_, ?_⟩
  · exact hpair.imp (by simp [tradeLe])
  · intro h3
    have : (sortTrades ts).length = ts.length := List.length_mergeSort ts
    simp [top2, this]
    omega
  · intro x hx y hy hyn
    have hy' : y ∈ sortTrades ts :=
      (List.mergeSort_perm ts tradeLe).mem_iff.mpr hy
    have hsplit := List.take_append_drop 2 (sortTrades ts)
    have hdrop : y ∈ (sortTrades ts).drop 2 := by
      rcases List.mem_append.mp (hsplit ▸ hy') with h | h
      · exact absurd h hyn
      · exact h
    have hp := hpair
    rw [← hsplit] at hp
    have := (List.pairwise_append.mp hp).2.2 x hx y hdrop
    simpa [tradeLe] using this
  · intro hlen
    match ts, hlen with
    | [], _ => simp [top2, sortTrades]
    | [a], _ => simp [top2, sortTrades]
  · intro a b hab hle
    exact List.pair_sublist_mergeSort tradeLe_trans tradeLe_total
      (by simpa [tradeLe] using hle) hab

/-- Witness for C6 at a concrete 3-candidate date bucket. -/
theorem ranker_selects_top_two_witness :
    3 ≤ exTriple.length ∧ (top2 exTriple).length = 2 :=
  ⟨by decide, ((ranker_selects_top_two []).2 exTriple).2.1 (by decide)⟩

lemma alistPush_cons_eq {κ α : Type} [DecidableEq κ]
    (k : κ) (as : List α) (rest : List (κ × List α)) (a : α) :
    alistPush ((k, as) :: rest) k a = (k, as ++ [a]) :: rest := by
  simp [alistPush]

lemma alistPush_cons_ne {κ α : Type} [DecidableEq κ] {k' k : κ}
    (h : k' ≠ k) (as : List α) (rest : List (κ × List α)) (a : α) :
    alistPush ((k', as) :: rest) k a = (k', as) :: alistPush rest k a := by
  simp [alistPush, h]

lemma keys_alistPush {κ α : Type} [DecidableEq κ]
    (l : List (κ × List α)) (k : κ) (a : α) :
    (alistPush l k a).map Prod.fst =
      if k ∈ l.map Prod.fst then l.map Prod.fst
      else l.map Prod.fst ++ [k] := by
  induction l with
  | nil => simp [alistPush]
  | cons q rest ih =>
    obtain ⟨k', as⟩ := q
    by_cases hk : k' = k
    · subst hk
      simp [alistPush]
    · simp only [alistPush, if_neg hk, List.map_cons, ih]
      by_cases hm : k ∈ rest.map Prod.fst
      · simp [hm, List.mem_cons]
      · simp [hm, List.mem_cons, Ne.symm hk]

lemma foldl_alistPush_keys_nodup (l : List Trade) :
    ∀ acc : List (Date × List Trade), ((acc.map Prod.fst).Nodup) →
    (((l.foldl (fun acc t => alistPush acc t.date t) acc).map Prod.fst).Nodup) := by
  induction l with
  | nil => intro acc h; exact h
  | cons t rest ih =>
    intro acc h
    rw [List.foldl_cons]
    apply ih
    rw [keys_alistPush]
    by_cases hm : t.date ∈ acc.map Prod.fst
    · simpa [hm] using h
    · simp only [if_neg hm]
      exact List.Nodup.append h (List.nodup_singleton _)
        (by simpa using hm)

lemma groupByDate_keys_nodup (l : List Trade) :
    ((groupByDate l).map Prod.fst).Nodup :=
  foldl_alistPush_keys_nodup l [] (by simp)

lemma alistPush_snd_ne_nil {κ α : Type} [DecidableEq κ]
    (l : List (κ × List α)) (k : κ) (a : α)
    (h : ∀ p ∈ l, p.2 ≠ []) : ∀ p ∈ alistPush l k a, p.2 ≠ [] := by
  induction l with
  | nil =>
    intro p hp
    simp only [alistPush, List.mem_singleton] at hp
    subst hp
    simp
  | cons q rest ih =>
    obtain ⟨k', as⟩ := q
    by_cases hk : k' = k
    · subst hk
      intro p hp
      rw [alistPush_cons_eq] at hp
      rcases List.mem_cons.mp hp with hp | hp
      · subst hp; simp
      · exact h p (List.mem_cons_of_mem _ hp)
    · intro p hp
      rw [alistPush_cons_ne hk] at hp
      rcases List.mem_cons.mp hp with hp | hp
      · subst hp
        exact h _ (List.mem_cons_self _ _)
      · exact ih (fun q hq => h q (List.mem_cons_of_mem _ hq)) p hp

lemma groupByDate_snd_ne_nil (l : List Trade) :
    ∀ p ∈ groupByDate l, p.2 ≠ [] := by
  suffices h : ∀ acc : List (Date × List Trade), (∀ p ∈ acc, p.2 ≠ []) →
      ∀ p ∈ l.foldl (fun acc t => alistPush acc t.date t) acc, p.2 ≠ [] by
    exact h [] (by simp)
  induction l with
  | nil => intro acc h; exact h
  | cons t rest ih =>
    intro acc h
    rw [List.foldl_cons]
    exact ih _ (alistPush_snd_ne_nil acc t.date t h)

lemma top2_ne_nil (ts : List Trade) (h : ts ≠ []) : top2 ts ≠ [] := by
  have hlen : (sortTrades ts).length = ts.length := List.length_mergeSort ts
  have hpos : 0 < ts.length := List.length_pos.mpr h
  simp only [top2, ← List.length_pos, List.length_take, hlen]
  omega

lemma trades_exPair :
    (runBacktestCore [exTradeA, exTradeB]).trades =
      [(exDate, [exTradeA, exTradeB])] := by
  have hg : groupByDate [exTradeA, exTradeB] =
      [(exDate, [exTradeA, exTradeB])] := by
    simp [groupByDate, alistPush, exTradeA, exTradeB]
  have ht : sortTrades [exTradeA, exTradeB] = [exTradeA, exTradeB] :=
    List.mergeSort_of_sorted
      (by simp [List.pairwise_cons, tradeLe, exTradeA, exTradeB])
  simp [runBacktestCore, sortedBuckets, hg, processDate, top2, ht]

/-- C7: the export table has exactly one row per date key of the selected
trades map (keys are pairwise distinct and every key holds at least one
selected trade), whose value is the fresh zero-accumulator rounded
reduction of that date's selected trades' profit/loss — independent of the
monthly accumulator; in particular two selected trades on one date with
profit/loss `1.5` and `-0.5` produce the single row `(date, 1.0)`. -/
theorem export_table_per_date :
    (∀ allTrades : List Trade,
      (runBacktestCore allTrades).csv =
        (runBacktestCore allTrades).trades.map
          (fun e => (e.1, e.2.foldl (fun acc t => round (acc + t.pnlPercent)) 0))
      ∧ ((runBacktestCore allTrades).trades.map Prod.fst).Nodup
      ∧ ∀ e ∈ (runBacktestCore allTrades).trades, e.2 ≠ [])
    ∧ (runBacktestCore [exTradeA, exTradeB]).csv = [(exDate, 1)] := by
  constructor
  · intro allTrades
    have hlink : (runBacktestCore allTrades).trades =
        (sortedBuckets allTrades).map (fun e => (e.1, top2 e.2)) := by
      have h := foldl_processDate_snd (sortedBuckets allTrades) ([], [])
      simpa [runBacktestCore] using h
    refine ⟨rfl, ?_, ?_⟩
    · rw [hlink]
      have hperm : List.Perm ((sortedBuckets allTrades).map Prod.fst)
          ((groupByDate allTrades).map Prod.fst) :=
        (List.mergeSort_perm (groupByDate allTrades) bucketLe).map Prod.fst
      have : ((sortedBuckets allTrades).map (fun e => (e.1, top2 e.2))).map
          Prod.fst = (sortedBuckets allTrades).map Prod.fst := by
        simp [Function.comp]
      rw [this]
      exact hperm.nodup_iff.mpr (groupByDate_keys_nodup allTrades)
    · intro e he
      rw [hlink] at he
      obtain ⟨orig, horig, rfl⟩ := List.mem_map.mp he
      have horig' : orig ∈ groupByDate allTrades :=
        (List.mergeSort_perm (groupByDate allTrades) bucketLe).subset horig
      exact top2_ne_nil orig.2 (groupByDate_snd_ne_nil allTrades orig horig')
  · have h1 : (runBacktestCore [exTradeA, exTradeB]).csv =
        (runBacktestCore [exTradeA, exTradeB]).trades.map
          (fun e => (e.1, e.2.foldl (fun acc t => round (acc + t.pnlPercent)) 0)) :=
      rfl
    rw [h1, trades_exPair]
    simp only [List.map_cons, List.map_nil, List.foldl_cons, List.foldl_nil]
    norm_num [exTradeA, exTradeB, round]

/-- Witness for C7: the concrete two-trade date appears in the selected
trades map with a nonempty selection. -/
theorem export_table_per_date_witness :
    ((exDate, [exTradeA, exTradeB]) ∈ (runBacktestCore [exTradeA, exTradeB]).trades)
    ∧ ([exTradeA, exTradeB] : List Trade) ≠ [] :=
  ⟨by rw [trades_exPair]; exact List.mem_singleton.mpr rfl,
   (export_table_per_date.1 [exTradeA, exTradeB]).2.2
     (exDate, [exTradeA, exTradeB])
     (by rw [trades_exPair]; exact List.mem_singleton.mpr rfl)⟩

end AlgoTrading
